/-
Verification of the experiment resource model and state-polling loop of the
iotlabcli `experiment` module (`iotlabcli/experiment.py`).

The Python source is shallowly embedded: the mutable `_Experiment` object
becomes a record threaded through `Except`-valued operations, the process-wide
`AliasNodes._alias` counter becomes an explicitly threaded natural number, and
the wall-clock polling loop of `wait_state` becomes a function over an explicit
trace of (clock reading, fetched state) pairs.

`iotlabcli/associations.py` (`AssociationsMap`) and `iotlabcli/helpers.py`
(`node_url_sort_key`, `check_experiment_state`) are not part of the provided
sources; definitions for them are modelled from the specification and marked
`Modelled from the spec:` in their doc comments.
-/
import Mathlib

namespace Iotlab

/-! ## Character-list utilities

Python's `str.split` / `os.path.basename` are embedded over `List Char`
because they must evaluate on concrete inputs.
-/

/-- Split a character list on a separator character, like Python
`str.split(sep)` for a one-character separator: `splitOnChar '.' "a.b"` is
`["a", "b"]` and the empty string splits to `[""]`. -/
def splitOnChar (c : Char) : List Char → List (List Char)
  | [] => [[]]
  | x :: xs =>
    let r := splitOnChar c xs
    if x = c then [] :: r
    else
      match r with
      | [] => [[x]]
      | y :: ys => (x :: y) :: ys

/-- Join character lists with a separator character (inverse of
`splitOnChar`, used to rebuild the node-type part of a node url). -/
def joinChar (c : Char) : List (List Char) → List Char
  | [] => []
  | [x] => x
  | x :: y :: ys => x ++ c :: joinChar c (y :: ys)

/-- Read a decimal number from a character list, like Python `int` on the
digit strings appearing in node urls; non-digit characters contribute
garbage, which only perturbs the sort key, never correctness of membership. -/
def charsToNat (l : List Char) : Nat :=
  l.foldl (fun a c => a * 10 + (c.toNat - 48)) 0

/-- Embedding of `os.path.basename`: the part of the path after the last
slash. -/
def basename (s : String) : String :=
  String.mk ((splitOnChar '/' s.toList).getLastD s.toList)

/-! ## Association names (`experiment.py` lines 35, 566-583) -/

/-- Embedding of `NODES_ASSOCIATIONS_FILE_ASSOCS = ('firmware',)`. -/
def NODES_ASSOCIATIONS_FILE_ASSOCS : List String := ["firmware"]

/-- Embedding of `_basename_if_in` with the default `transform=basename`. -/
def basename_if_in (value key : String) (container : List String) : String :=
  if key ∈ container then basename value else value

/-- Embedding of `nodes_association_name`: firmware names are normalized to
their basename, every other association type keeps its name. -/
def nodes_association_name (assoctype assocname : String) : String :=
  basename_if_in assocname assoctype NODES_ASSOCIATIONS_FILE_ASSOCS

/-! ## Canonical node ordering

Modelled from the spec: `helpers.node_url_sort_key` is not in the provided
sources; per the spec the canonical node-address ordering is lexicographic on
(site, architecture, numeric id) extracted from a node url such as
`m3-1.grenoble.iot-lab.info`.
-/

/-- Modelled from the spec: sort key of a node url, `(site, node type,
numeric id)` compared lexicographically. -/
def node_url_sort_key (url : String) : Lex (String × Lex (String × Nat)) :=
  let parts := splitOnChar '.' url.toList
  let node := parts.headD []
  let site := (parts.drop 1).headD []
  let segs := splitOnChar '-' node
  let numStr := segs.getLastD []
  let typ := joinChar '-' segs.dropLast
  toLex (String.mk site, toLex (String.mk typ, charsToNat numStr))

/-- Canonical ordering on node urls induced by `node_url_sort_key`. -/
def urlLe (a b : String) : Prop := node_url_sort_key a ≤ node_url_sort_key b

instance : DecidableRel urlLe :=
  fun a b => inferInstanceAs (Decidable (node_url_sort_key a ≤ node_url_sort_key b))

instance : IsTotal String urlLe := ⟨fun a b => le_total (node_url_sort_key a) (node_url_sort_key b)⟩

instance : IsTrans String urlLe := ⟨fun _ _ _ h1 h2 => le_trans h1 h2⟩

/-- Node references of one association value, kept without duplicates and
sorted by the canonical node ordering (Modelled from the spec: the
`AssociationsMap` is created with `sortkey=helpers.node_url_sort_key`). -/
def sortedUniqueUrls (l : List String) : List String :=
  l.dedup.insertionSort urlLe

/-! ## Errors

The Python code raises `ValueError` everywhere; the spec distinguishes the
error kinds, which the embedding keeps apart as constructors.
-/

/-- Error kinds of the experiment model: mixed physical/alias modes, a
physical node registered twice, a node associated under two different values
of one association type, and an invalid alias architecture string. -/
inductive ExpError where
  | modeConflict
  | duplicateNodes (nodes : List String)
  | assocConflict (nodes : List String)
  | badArchi (archi : String)
deriving DecidableEq

/-! ## AliasNodes (`experiment.py` lines 310-398) -/

/-- Embedding of the `AliasNodes` object: alias id string, node count and the
`properties` dict. The Python attribute `alias` is a reserved word in Lean and
is named `aliasid` here. -/
structure AliasNodes where
  aliasid : String
  nbnodes : Nat
  archi : String
  site : String
  mobile : Bool
deriving DecidableEq

/-- Embedding of `AliasNodes.ARCHIS`. -/
def AliasNodes.ARCHIS : List String :=
  ["wsn430:cc1101", "wsn430:cc2420", "m3:at86rf231", "a8:at86rf231",
   "des:wifi-cc1100", "custom:.*"]

/-- The languages of the `ARCHI_RE` alternatives under `re.match` semantics:
each literal alternative matches any string having it as a prefix, and
`custom:.*` matches any string starting with `custom:`. -/
def ARCHI_MATCH_PREFIXES : List String :=
  ["wsn430:cc1101", "wsn430:cc2420", "m3:at86rf231", "a8:at86rf231",
   "des:wifi-cc1100", "custom:"]

/-- Embedding of `AliasNodes._valid_archi`: `re.match` of the alternation of
`ARCHIS` anchors at the start only, so a string is valid iff one of the five
literal architectures or `custom:` is a prefix of it. -/
def AliasNodes.valid_archi (archi : String) : Bool :=
  ARCHI_MATCH_PREFIXES.any fun p => p.toList.isPrefixOf archi.toList

/-- Embedding of `AliasNodes._alias_uid`: the process-wide class counter
`AliasNodes._alias` is threaded explicitly. An explicit alias is returned
verbatim (Python applies `str`, the embedding takes it as a string) and leaves
the counter untouched; otherwise the counter is incremented and its new value
is the id. -/
def AliasNodes.alias_uid (explicit : Option String) (counter : Nat) : String × Nat :=
  match explicit with
  | some s => (s, counter)
  | none => (toString (counter + 1), counter + 1)

/-- Embedding of `AliasNodes.__init__`: validate the architecture, then draw
the alias id; on an invalid architecture the error is raised before the
counter is touched. -/
def AliasNodes.make (nbnodes : Nat) (site archi : String) (mobile : Bool)
    (explicit : Option String) (counter : Nat) : Except ExpError (AliasNodes × Nat) :=
  if AliasNodes.valid_archi archi then
    let p := AliasNodes.alias_uid explicit counter
    .ok (⟨p.1, nbnodes, archi, site, mobile⟩, p.2)
  else
    .error (.badArchi archi)

/-! ## Nodes of an experiment -/

/-- One entry of `_Experiment.nodes`: a physical node url string or an alias
node group (the Python list is heterogeneous). -/
inductive SerNode where
  | phys (url : String)
  | aliasN (a : AliasNodes)
deriving DecidableEq

/-- Sort key of a node-list entry; `sorted` is only ever applied to physical
node lists, alias entries get a constant key. -/
def SerNode.sortKey : SerNode → Lex (String × Lex (String × Nat))
  | .phys u => node_url_sort_key u
  | .aliasN _ => node_url_sort_key ""

/-- Canonical ordering on node-list entries. -/
def nodeLe (a b : SerNode) : Prop := a.sortKey ≤ b.sortKey

instance : DecidableRel nodeLe :=
  fun a b => inferInstanceAs (Decidable (a.sortKey ≤ b.sortKey))

instance : IsTotal SerNode nodeLe := ⟨fun a b => le_total a.sortKey b.sortKey⟩

instance : IsTrans SerNode nodeLe := ⟨fun _ _ _ h1 h2 => le_trans h1 h2⟩

/-! ## AssociationsMap

Modelled from the spec: `iotlabcli/associations.py` is not in the provided
sources. Per the spec, an `AssociationsMap` is an ordered mapping from a
value name to its node references; `extend` appends to an existing entry or
creates a new one preserving first-seen order, fails on a node already bound
to a different value, and node references are kept deduplicated and sorted by
the canonical node ordering; `from_list` reconstructs a map from a serialized
entry list without re-validation (trusted input).
-/

/-- One serialized association entry: a value name and its node references. -/
structure AssocRecord where
  value : String
  nodes : List String
deriving DecidableEq

/-- Modelled from the spec: an `AssociationsMap` as its ordered entry list. -/
structure AssociationsMap where
  assocs : List AssocRecord
deriving DecidableEq

/-- Modelled from the spec: `keys()`, the distinct value names in insertion
order. -/
def AssociationsMap.keys (m : AssociationsMap) : List String :=
  m.assocs.map AssocRecord.value

/-- Nodes of `nodes` that are already bound in `m` under a value name other
than `name` (the offending nodes an extension conflict reports). -/
def AssociationsMap.conflicting (m : AssociationsMap) (name : String)
    (nodes : List String) : List String :=
  nodes.filter fun n => m.assocs.any fun r => r.value != name && r.nodes.contains n

/-- Modelled from the spec: `extendvalues(name, nodes)`. Fails when some node
is already bound to a different value name; otherwise extends the entry of
`name` (or appends a fresh entry), keeping node references deduplicated and
sorted. -/
def AssociationsMap.extendvalues (m : AssociationsMap) (name : String)
    (nodes : List String) : Except ExpError AssociationsMap :=
  if (m.conflicting name nodes).isEmpty then
    if m.assocs.any (fun r => r.value == name) then
      .ok ⟨m.assocs.map fun r =>
        if r.value == name then ⟨r.value, sortedUniqueUrls (r.nodes ++ nodes)⟩ else r⟩
    else
      .ok ⟨m.assocs ++ [⟨name, sortedUniqueUrls nodes⟩]⟩
  else
    .error (.assocConflict (m.conflicting name nodes))

/-- Modelled from the spec: `AssociationsMap.from_list`, trusted
reconstruction of a map from its serialized entry list; `None` stays `None`. -/
def AssociationsMap.from_list (l : Option (List AssocRecord)) : Option AssociationsMap :=
  l.map AssociationsMap.mk

/-! ## The experiment (`experiment.py` lines 409-545) -/

/-- Embedding of the `_Experiment` attributes set in `__init__`. -/
structure Experiment where
  duration : Nat
  reservation : Option Nat
  name : Option String
  type : Option String
  nodes : List SerNode
  firmwareassociations : Option AssociationsMap
  profileassociations : Option AssociationsMap
  associations : Option (List (String × AssociationsMap))
deriving DecidableEq

/-- Embedding of `_Experiment.__init__`. -/
def Experiment.new (name : Option String) (duration : Nat)
    (start_time : Option Nat) : Experiment :=
  ⟨duration, start_time, name, none, [], none, none, none⟩

/-- Embedding of `_Experiment._set_type`: the first resource group fixes the
addressing mode, a later differing mode is a hard error. -/
def Experiment.set_type (e : Experiment) (exp_type : String) : Except ExpError Experiment :=
  match e.type with
  | some t => if t ≠ exp_type then .error .modeConflict else .ok { e with type := some exp_type }
  | none => .ok { e with type := some exp_type }

/-- The intersection `set(self.nodes) & set(nodes_list)` of
`set_physical_nodes`: the nodes of the new list already registered in the
experiment, without duplicates. -/
def Experiment.dupNodes (e : Experiment) (nodes_list : List String) : List String :=
  (nodes_list.filter fun u => e.nodes.contains (SerNode.phys u)).dedup

/-- Embedding of `_Experiment.set_physical_nodes`: set the mode to physical,
fail on any node already registered (reporting the intersection), otherwise
extend and keep the node list deduplicated and sorted by the canonical
ordering. -/
def Experiment.set_physical_nodes (e : Experiment) (nodes_list : List String) :
    Except ExpError Experiment :=
  match e.set_type "physical" with
  | .error err => .error err
  | .ok e1 =>
    if (e1.dupNodes nodes_list).isEmpty then
      .ok { e1 with
            nodes := ((e1.nodes ++ nodes_list.map SerNode.phys).dedup).insertionSort nodeLe }
    else
      .error (.duplicateNodes (e1.dupNodes nodes_list))

/-- Embedding of `_Experiment.set_alias_nodes`: set the mode to alias and
append the alias group as-is (no deduplication). -/
def Experiment.set_alias_nodes (e : Experiment) (a : AliasNodes) : Except ExpError Experiment :=
  match e.set_type "alias" with
  | .error err => .error err
  | .ok e1 => .ok { e1 with nodes := e1.nodes ++ [SerNode.aliasN a] }

/-! ## Resource groups (`exp_resources`, lines 282-307) -/

/-- Nodes of one resource group: a physical url list or an alias group. -/
inductive GroupNodes where
  | physical (urls : List String)
  | aliasN (a : AliasNodes)
deriving DecidableEq

/-- Embedding of the `exp_resources` dict: nodes, optional firmware path,
optional profile name and the extra named associations in order. The `type`
field is derived from the nodes, exactly as `exp_resources` derives it with
`isinstance`. -/
structure ResourceGroup where
  nodes : GroupNodes
  firmware : Option String
  profile : Option String
  associations : List (String × String)
deriving DecidableEq

/-- The `type` field `exp_resources` computes: `alias` for an `AliasNodes`
argument, `physical` otherwise. -/
def ResourceGroup.rtype (g : ResourceGroup) : String :=
  match g.nodes with
  | .physical _ => "physical"
  | .aliasN _ => "alias"

/-- Embedding of the `_register_nodes` dispatch: physical node lists go to
`set_physical_nodes`, alias groups to `set_alias_nodes`. -/
def Experiment.register_nodes (e : Experiment) : GroupNodes → Except ExpError Experiment
  | .physical urls => e.set_physical_nodes urls
  | .aliasN a => e.set_alias_nodes a

/-- Embedding of `_Experiment._nodes_to_assoc`: in alias mode the association
subject is the singleton alias id, in physical mode the url list itself. -/
def assocSubject (gn : GroupNodes) : List String :=
  match gn with
  | .physical urls => urls
  | .aliasN a => [a.aliasid]

/-- Firmware registration step of `add_exp_resources`: lazily create the
firmware map (`setattr_if_none`) and extend it under the normalized name. -/
def Experiment.add_firmware (e : Experiment) (fw : Option String) (nodes : List String) :
    Except ExpError Experiment :=
  match fw with
  | none => .ok e
  | some f =>
    match (e.firmwareassociations.getD ⟨[]⟩).extendvalues
        (nodes_association_name "firmware" f) nodes with
    | .error err => .error err
    | .ok m => .ok { e with firmwareassociations := some m }

/-- Profile registration step of `add_exp_resources`. -/
def Experiment.add_profile (e : Experiment) (p : Option String) (nodes : List String) :
    Except ExpError Experiment :=
  match p with
  | none => .ok e
  | some pr =>
    match (e.profileassociations.getD ⟨[]⟩).extendvalues
        (nodes_association_name "profile" pr) nodes with
    | .error err => .error err
    | .ok m => .ok { e with profileassociations := some m }

/-- Insert or replace the map of one association type, preserving the
insertion order of the Python dict. -/
def setAssoc (l : List (String × AssociationsMap)) (t : String) (m : AssociationsMap) :
    List (String × AssociationsMap) :=
  if l.any (fun p => p.1 == t) then
    l.map fun p => if p.1 == t then (t, m) else p
  else
    l ++ [(t, m)]

/-- Embedding of `_Experiment._add_nodes_association`: lazily create the
association dict and the per-type map, then extend it under the adapted
name. -/
def Experiment.add_assoc (e : Experiment) (nodes : List String)
    (assoctype assocname : String) : Except ExpError Experiment :=
  match (((e.associations.getD []).lookup assoctype).getD ⟨[]⟩).extendvalues
      (nodes_association_name assoctype assocname) nodes with
  | .error err => .error err
  | .ok m' => .ok { e with associations := some (setAssoc (e.associations.getD []) assoctype m') }

/-- Extra-association loop of `add_exp_resources`, iterating the
`associations` dict in insertion order. -/
def Experiment.add_assocs (e : Experiment) (nodes : List String)
    (l : List (String × String)) : Except ExpError Experiment :=
  match l with
  | [] => .ok e
  | (t, v) :: rest =>
    match e.add_assoc nodes t v with
    | .error err => .error err
    | .ok e' => e'.add_assocs nodes rest

/-- Embedding of `_Experiment.add_exp_resources`: set the mode, register the
nodes, then register the firmware, profile and extra associations on the
association subject. -/
def Experiment.add_exp_resources (e : Experiment) (g : ResourceGroup) :
    Except ExpError Experiment :=
  match e.set_type g.rtype with
  | .error err => .error err
  | .ok e1 =>
    match e1.register_nodes g.nodes with
    | .error err => .error err
    | .ok e2 =>
      match e2.add_firmware g.firmware (assocSubject g.nodes) with
      | .error err => .error err
      | .ok e3 =>
        match e3.add_profile g.profile (assocSubject g.nodes) with
        | .error err => .error err
        | .ok e4 => e4.add_assocs (assocSubject g.nodes) g.associations

/-- Embedding of the incremental build loop of `submit_experiment`: start
from `_Experiment(name, duration, start_time)` and add each resource group in
order. -/
def buildExperiment (name : Option String) (duration : Nat) (start_time : Option Nat)
    (groups : List ResourceGroup) : Except ExpError Experiment :=
  groups.foldlM Experiment.add_exp_resources (Experiment.new name duration start_time)

/-- Embedding of `_Experiment.filenames`: the keys of the firmware
association map, or the empty list when the map was never created. -/
def Experiment.filenames (e : Experiment) : List String :=
  (e.firmwareassociations.map AssociationsMap.keys).getD []

/-! ## Serialization and reconstruction (`from_dict`, `_load_assocs`)

Modelled from the spec: the JSON encoder of `helpers.json_dumps` is not in
the provided sources; per the spec the canonical description carries `name`,
`duration`, `reservation`, `type`, `nodes` and one ordered entry list per
association type.
-/

/-- The canonical serialized experiment description. -/
structure ExpDescription where
  duration : Nat
  reservation : Option Nat
  name : Option String
  type : Option String
  nodes : List SerNode
  firmwareassociations : Option (List AssocRecord)
  profileassociations : Option (List AssocRecord)
  associations : Option (List (String × List AssocRecord))
deriving DecidableEq

/-- Modelled from the spec: serialization of an experiment to its canonical
description (each association map serializes to its ordered entry list). -/
def Experiment.serialize (e : Experiment) : ExpDescription :=
  ⟨e.duration, e.reservation, e.name, e.type, e.nodes,
   e.firmwareassociations.map AssociationsMap.assocs,
   e.profileassociations.map AssociationsMap.assocs,
   e.associations.map fun l => l.map fun p => (p.1, p.2.assocs)⟩

/-- Modelled from the spec: `associationsmapdict_from_dict`, trusted
reconstruction of the per-type association maps. -/
def associationsmapdict_from_dict (d : Option (List (String × List AssocRecord))) :
    Option (List (String × AssociationsMap)) :=
  d.map fun l => l.map fun p => (p.1, AssociationsMap.mk p.2)

/-- Embedding of `_Experiment.from_dict` together with `_load_assocs`: pop
the top-level fields into a fresh experiment and load the association lists
with no checking (trusted reconstruction). -/
def Experiment.from_dict (d : ExpDescription) : Experiment :=
  ⟨d.duration, d.reservation, d.name, d.type, d.nodes,
   AssociationsMap.from_list d.firmwareassociations,
   AssociationsMap.from_list d.profileassociations,
   associationsmapdict_from_dict d.associations⟩

/-! ## The polling loop (`wait_state`, lines 239-279) -/

/-- Embedding of `STOPPED_STATES = {'Terminated', 'Error'}`. -/
def STOPPED_STATES : List String := ["Terminated", "Error"]

/-- Outcome of the polling loop: a target state reached, the experiment
already terminal, the timeout exceeded, or the given observation trace
exhausted (the real loop would keep polling). -/
inductive WaitResult where
  | reached (s : String)
  | alreadyTerminal (s : String)
  | timedOut
  | outOfTrace
deriving DecidableEq

/-- Embedding of `wait_state` over an explicit trace. Each loop iteration is
one `(t, s)` pair: `t` is the `time.time()` reading of the `_timeout` check
at the top of the iteration (`time.time() > start_time + timeout` becomes
`start_time + timeout < t`) and `s` the state `state_fct` would return if the
check passes. The second component of the result counts the `state_fct`
calls made. -/
def wait_state (expected : List String) (start_time timeout : Nat) :
    List (Nat × String) → WaitResult × Nat
  | [] => (.outOfTrace, 0)
  | (t, s) :: rest =>
    if start_time + timeout < t then (.timedOut, 0)
    else if s ∈ expected then (.reached s, 1)
    else if s ∈ STOPPED_STATES then (.alreadyTerminal s, 1)
    else
      let r := wait_state expected start_time timeout rest
      (r.1, r.2 + 1)

/-! ## Spec-side helper definitions used to state the claims -/

/-- Append a key if it is not yet present (first-seen insertion order). -/
def insertNew (ks : List String) (k : String) : List String :=
  if k ∈ ks then ks else ks ++ [k]

/-- Effect of one group's firmware declaration on the recorded firmware
names: nothing for `none`, the basename appended if new for `some`. -/
def firmStep (ks : List String) (fw : Option String) : List String :=
  match fw with
  | none => ks
  | some f => insertNew ks (basename f)

/-- Effect of one group's profile declaration on the recorded profile
names. -/
def profStep (ks : List String) (p : Option String) : List String :=
  match p with
  | none => ks
  | some v => insertNew ks v

/-- The firmware basenames a group sequence records, accumulated in
first-seen order: the expected value of `filenames` after a build. -/
def firmware_names (groups : List ResourceGroup) (ks : List String) : List String :=
  match groups with
  | [] => ks
  | g :: rest => firmware_names rest (firmStep ks g.firmware)

/-- Thread `AliasNodes.alias_uid` through a list of construction requests
(`none` = auto id, `some s` = explicit id), returning the assigned ids and
the final counter. -/
def alias_seq : List (Option String) → Nat → List String × Nat
  | [], c => ([], c)
  | r :: rs, c =>
    let p := AliasNodes.alias_uid r c
    let q := alias_seq rs p.2
    (p.1 :: q.1, q.2)

/-- The ids the specification claims: explicit requests keep their id and do
not consume the counter, auto requests take successive counter values as
strings. -/
def claimed_ids : List (Option String) → Nat → List String
  | [], _ => []
  | none :: rs, c => toString (c + 1) :: claimed_ids rs (c + 1)
  | some s :: rs, c => s :: claimed_ids rs c

/-- Number of auto-id requests in a request list. -/
def count_auto (l : List (Option String)) : Nat :=
  l.countP fun r => r.isNone

/-- Concrete experiment used by the round-trip witness: the result of adding
two alias groups (firmwares `dir/fw_b` and `fw_a`, one profile, one extra
`kernel` association) to a fresh 60-minute experiment. -/
def EXP2 : Experiment :=
  ⟨60, none, none, some "alias",
   [.aliasN ⟨"1", 2, "m3:at86rf231", "grenoble", false⟩,
    .aliasN ⟨"2", 1, "m3:at86rf231", "grenoble", false⟩],
   some ⟨[⟨"fw_b", ["1"]⟩, ⟨"fw_a", ["2"]⟩]⟩,
   some ⟨[⟨"prof", ["2"]⟩]⟩,
   some [("kernel", ⟨[⟨"k1", ["2"]⟩]⟩)]⟩

/-- Concrete physical experiment (one registered node) used by the duplicate
witness. -/
def EXPP : Experiment :=
  ⟨30, none, none, some "physical", [.phys "a-1.x"], none, none, none⟩

/-- Alias resource group with firmware `b`, used by the filenames
counterexample. -/
def GB : ResourceGroup :=
  ⟨.aliasN ⟨"1", 1, "m3:at86rf231", "g", false⟩, some "b", none, []⟩

/-- Alias resource group with firmware `a`, used by the filenames
counterexample. -/
def GA : ResourceGroup :=
  ⟨.aliasN ⟨"2", 1, "m3:at86rf231", "g", false⟩, some "a", none, []⟩

/-- The experiment obtained by adding `GB` then `GA` to a fresh 1-minute
experiment: its firmware names are recorded as `b` then `a`, in insertion
order. -/
def EXPBA : Experiment :=
  ⟨1, none, none, some "alias",
   [.aliasN ⟨"1", 1, "m3:at86rf231", "g", false⟩,
    .aliasN ⟨"2", 1, "m3:at86rf231", "g", false⟩],
   some ⟨[⟨"b", ["1"]⟩, ⟨"a", ["2"]⟩]⟩, none, none⟩

/-- The experiment obtained by adding only `GB` to a fresh 1-minute
experiment. -/
def EXPB : Experiment :=
  ⟨1, none, none, some "alias",
   [.aliasN ⟨"1", 1, "m3:at86rf231", "g", false⟩],
   some ⟨[⟨"b", ["1"]⟩]⟩, none, none⟩

/-- The experiment obtained by registering one extra `kernel` association on
a fresh experiment. -/
def EXPK : Experiment :=
  ⟨1, none, none, none, [], none, none, some [("kernel", ⟨[⟨"k1", ["1"]⟩]⟩)]⟩

/-- The experiment obtained by one successful `set_physical_nodes` call with
a twice-listed node on a fresh experiment. -/
def E1X : Experiment :=
  ⟨30, none, none, some "physical", [.phys "a-1.x"], none, none, none⟩

/-- The architecture strings the specification lists as accepted: the five
exact whitelist strings, and anything matching the `custom:` wildcard. -/
def claim_whitelisted (archi : String) : Prop :=
  archi ∈ ["wsn430:cc1101", "wsn430:cc2420", "m3:at86rf231", "a8:at86rf231",
           "des:wifi-cc1100"] ∨
  "custom:".toList.isPrefixOf archi.toList = true

instance (archi : String) : Decidable (claim_whitelisted archi) :=
  inferInstanceAs (Decidable (_ ∨ _))

/-- Keys of the profile association map of an experiment (or `[]` when the
map was never created), mirroring `filenames` for profiles. -/
def Experiment.profileKeys (e : Experiment) : List String :=
  (e.profileassociations.map AssociationsMap.keys).getD []

/-- Keys of the association map of one extra association type (or `[]` if
this type has no map). -/
def Experiment.extraKeys (e : Experiment) (t : String) : List String :=
  ((((e.associations.getD []).lookup t).map AssociationsMap.keys)).getD []

deriving instance DecidableEq for Except

/-! ## Helper lemmas -/

theorem insertNew_of_mem {ks : List String} {k : String} (h : k ∈ ks) :
    insertNew ks k = ks := by
  unfold insertNew
  exact if_pos h

theorem insertNew_of_not_mem {ks : List String} {k : String} (h : k ∉ ks) :
    insertNew ks k = ks ++ [k] := by
  unfold insertNew
  exact if_neg h

theorem extend_keys {m m' : AssociationsMap} {name : String} {nodes : List String}
    (h : m.extendvalues name nodes = .ok m') : m'.keys = insertNew m.keys name := by
  unfold AssociationsMap.extendvalues at h
  split at h
  · split at h
    next hany =>
      injection h with h
      subst h
      have hmem : name ∈ m.keys := by
        rcases List.any_eq_true.mp hany with ⟨r, hr, hbeq⟩
        exact List.mem_map.mpr ⟨r, hr, beq_iff_eq.mp hbeq⟩
      rw [insertNew_of_mem hmem]
      simp only [AssociationsMap.keys, List.map_map]
      refine List.map_congr_left fun r _ => ?_
      by_cases hv : (r.value == name) = true <;> simp [Function.comp, hv]
    next hany =>
      injection h with h
      subst h
      have hmem : name ∉ m.keys := by
        intro hn
        rcases List.mem_map.mp hn with ⟨r, hr, hv⟩
        exact hany (List.any_eq_true.mpr ⟨r, hr, beq_iff_eq.mpr hv⟩)
      rw [insertNew_of_not_mem hmem]
      simp [AssociationsMap.keys]
  · exact absurd h (by simp)

theorem extend_error {m : AssociationsMap} {name : String} {nodes : List String}
    {err : ExpError} (h : m.extendvalues name nodes = .error err) :
    ∃ ns, err = .assocConflict ns := by
  unfold AssociationsMap.extendvalues at h
  split at h
  · split at h <;> exact absurd h (by simp)
  · injection h with h
    exact ⟨_, h.symm⟩

theorem extend_mem_keys {m m' : AssociationsMap} {name : String} {nodes : List String}
    (h : m.extendvalues name nodes = .ok m') : name ∈ m'.keys := by
  rw [extend_keys h]
  unfold insertNew
  split
  · assumption
  · simp

/-- Round-trip core: reconstruction from a description followed by
serialization is the identity on descriptions (`from_dict` trusts the stored
lists and `serialize` writes them back unchanged). -/
theorem serialize_from_dict (d : ExpDescription) :
    (Experiment.from_dict d).serialize = d := by
  have map_pair : ∀ (l : List (String × List AssocRecord)),
      (l.map fun p => (p.1, p.2)) = l := by
    intro l
    induction l with
    | nil => rfl
    | cons a t ih => simp [ih]
  cases d with
  | mk dur res nm ty nds fa pa asc =>
    cases fa <;> cases pa <;> cases asc <;>
      simp [Experiment.from_dict, Experiment.serialize, AssociationsMap.from_list,
            associationsmapdict_from_dict, Function.comp, map_pair] <;>
      exact List.map_id'' (fun p => rfl) _

theorem wait_state_neutral_step (expected : List String) (t0 timeout t : Nat) (s : String)
    (rest : List (Nat × String)) (ht : t ≤ t0 + timeout) (h1 : s ∉ expected)
    (h2 : s ∉ STOPPED_STATES) :
    wait_state expected t0 timeout ((t, s) :: rest) =
      ((wait_state expected t0 timeout rest).1, (wait_state expected t0 timeout rest).2 + 1) := by
  simp [wait_state, Nat.not_lt.mpr ht, h1, h2]

theorem mem_insertNew_self (ks : List String) (k : String) : k ∈ insertNew ks k := by
  unfold insertNew
  split
  · assumption
  · simp

theorem insertNew_nodup {ks : List String} (h : ks.Nodup) (k : String) :
    (insertNew ks k).Nodup := by
  unfold insertNew
  split
  · exact h
  · simp [List.nodup_append, h, *]

theorem set_type_ok {e e' : Experiment} {t : String} (h : e.set_type t = .ok e') :
    e' = { e with type := some t } := by
  unfold Experiment.set_type at h
  split at h
  · split at h
    · exact absurd h (by simp)
    · injection h with h
      exact h.symm
  · injection h with h
    exact h.symm

theorem set_type_of_matching {e : Experiment} {t : String}
    (h : e.type = none ∨ e.type = some t) :
    e.set_type t = .ok { e with type := some t } := by
  unfold Experiment.set_type
  rcases h with h | h <;> rw [h] <;> simp

theorem set_type_conflict {e : Experiment} {t u : String} (he : e.type = some u)
    (hne : u ≠ t) : e.set_type t = .error .modeConflict := by
  unfold Experiment.set_type
  rw [he]
  simp [hne]

theorem set_physical_nodes_fields {e e' : Experiment} {urls : List String}
    (h : e.set_physical_nodes urls = .ok e') :
    e' = { e with
           type := some "physical"
           nodes := ((e.nodes ++ urls.map SerNode.phys).dedup).insertionSort nodeLe } := by
  unfold Experiment.set_physical_nodes at h
  split at h
  next heq => exact absurd h (by simp)
  next e1 heq =>
    have he1 := set_type_ok heq
    subst he1
    split at h
    · injection h with h
      exact h.symm
    · exact absurd h (by simp)

theorem mem_dupNodes {e : Experiment} {urls : List String} {x : String} :
    x ∈ e.dupNodes urls ↔ SerNode.phys x ∈ e.nodes ∧ x ∈ urls := by
  unfold Experiment.dupNodes
  rw [List.mem_dedup, List.mem_filter]
  simp [and_comm]

theorem set_physical_nodes_error_shape {e : Experiment} {urls : List String}
    {err : ExpError} (htype : e.type = none ∨ e.type = some "physical")
    (h : e.set_physical_nodes urls = .error err) :
    err = .duplicateNodes (e.dupNodes urls) ∧ ∃ u ∈ urls, SerNode.phys u ∈ e.nodes := by
  unfold Experiment.set_physical_nodes at h
  rw [set_type_of_matching htype] at h
  split at h
  next heq => exact absurd heq (by simp)
  next e1 heq =>
    injection heq with heq
    subst heq
    split at h
    · exact absurd h (by simp)
    next hne =>
      injection h with h
      constructor
      · exact h.symm
      · have hnotnil : ¬ ({ e with type := some "physical" } : Experiment).dupNodes urls = [] := by
          intro hnil
          exact hne (by rw [hnil]; rfl)
        rcases List.exists_mem_of_ne_nil _ hnotnil with ⟨x, hx⟩
        have hx' := mem_dupNodes.mp hx
        exact ⟨x, hx'.2, hx'.1⟩

theorem set_physical_nodes_success {e : Experiment} {urls : List String}
    (htype : e.type = none ∨ e.type = some "physical")
    (hdisj : ∀ u ∈ urls, SerNode.phys u ∉ e.nodes) :
    e.set_physical_nodes urls =
      .ok { e with
            type := some "physical"
            nodes := ((e.nodes ++ urls.map SerNode.phys).dedup).insertionSort nodeLe } := by
  unfold Experiment.set_physical_nodes
  rw [set_type_of_matching htype]
  have hempty : ({ e with type := some "physical" } : Experiment).dupNodes urls = [] := by
    rw [List.eq_nil_iff_forall_not_mem]
    intro x hx
    have hx' := mem_dupNodes.mp hx
    exact hdisj x hx'.2 hx'.1
  split
  next heq => exact absurd heq (by simp)
  next e1 heq =>
    injection heq with heq
    subst heq
    split
    · rfl
    next hne => exact absurd (by rw [hempty]; rfl) hne

theorem set_alias_nodes_of_matching {e : Experiment} {a : AliasNodes}
    (htype : e.type = none ∨ e.type = some "alias") :
    e.set_alias_nodes a =
      .ok { e with
            type := some "alias"
            nodes := e.nodes ++ [SerNode.aliasN a] } := by
  unfold Experiment.set_alias_nodes
  rw [set_type_of_matching htype]

theorem set_alias_nodes_fields {e e' : Experiment} {a : AliasNodes}
    (h : e.set_alias_nodes a = .ok e') :
    e' = { e with
           type := some "alias"
           nodes := e.nodes ++ [SerNode.aliasN a] } := by
  unfold Experiment.set_alias_nodes at h
  split at h
  · exact absurd h (by simp)
  next e1 heq =>
    have he1 := set_type_ok heq
    subst he1
    injection h with h
    exact h.symm

theorem filenames_getD (e : Experiment) :
    e.filenames = (e.firmwareassociations.getD ⟨[]⟩).keys := by
  unfold Experiment.filenames
  cases e.firmwareassociations <;> simp [AssociationsMap.keys]

theorem profileKeys_getD (e : Experiment) :
    e.profileKeys = (e.profileassociations.getD ⟨[]⟩).keys := by
  unfold Experiment.profileKeys
  cases e.profileassociations <;> simp [AssociationsMap.keys]

theorem filenames_congr {a b : Experiment}
    (h : a.firmwareassociations = b.firmwareassociations) : a.filenames = b.filenames := by
  unfold Experiment.filenames
  rw [h]

theorem profileKeys_congr {a b : Experiment}
    (h : a.profileassociations = b.profileassociations) : a.profileKeys = b.profileKeys := by
  unfold Experiment.profileKeys
  rw [h]

theorem assoc_name_firmware (f : String) :
    nodes_association_name "firmware" f = basename f := by
  simp [nodes_association_name, basename_if_in, NODES_ASSOCIATIONS_FILE_ASSOCS]

theorem assoc_name_other {t : String} (h : t ≠ "firmware") (v : String) :
    nodes_association_name t v = v := by
  simp [nodes_association_name, basename_if_in, NODES_ASSOCIATIONS_FILE_ASSOCS, h]

theorem add_firmware_filenames {e e' : Experiment} {fw : Option String} {nodes : List String}
    (h : e.add_firmware fw nodes = .ok e') :
    e'.filenames = firmStep e.filenames fw ∧
    e'.profileassociations = e.profileassociations ∧
    e'.associations = e.associations ∧
    e'.nodes = e.nodes ∧ e'.type = e.type := by
  unfold Experiment.add_firmware at h
  split at h
  · injection h with h
    subst h
    exact ⟨rfl, rfl, rfl, rfl, rfl⟩
  next f =>
    split at h
    · exact absurd h (by simp)
    next m hm =>
      injection h with h
      subst h
      refine ⟨?_, rfl, rfl, rfl, rfl⟩
      have h1 := extend_keys hm
      rw [assoc_name_firmware, ← filenames_getD] at h1
      exact h1

theorem add_firmware_error {e : Experiment} {fw : Option String} {nodes : List String}
    {err : ExpError} (h : e.add_firmware fw nodes = .error err) :
    ∃ ns, err = .assocConflict ns := by
  unfold Experiment.add_firmware at h
  split at h
  · exact absurd h (by simp)
  next f =>
    split at h
    next heq =>
      injection h with h
      subst h
      exact extend_error heq
    · exact absurd h (by simp)

theorem add_profile_profileKeys {e e' : Experiment} {p : Option String} {nodes : List String}
    (h : e.add_profile p nodes = .ok e') :
    e'.profileKeys = profStep e.profileKeys p ∧
    e'.firmwareassociations = e.firmwareassociations ∧
    e'.associations = e.associations ∧
    e'.nodes = e.nodes ∧ e'.type = e.type := by
  unfold Experiment.add_profile at h
  split at h
  · injection h with h
    subst h
    exact ⟨rfl, rfl, rfl, rfl, rfl⟩
  next pr =>
    split at h
    · exact absurd h (by simp)
    next m hm =>
      injection h with h
      subst h
      refine ⟨?_, rfl, rfl, rfl, rfl⟩
      have h1 := extend_keys hm
      rw [assoc_name_other (by decide) pr, ← profileKeys_getD] at h1
      exact h1

theorem add_profile_error {e : Experiment} {p : Option String} {nodes : List String}
    {err : ExpError} (h : e.add_profile p nodes = .error err) :
    ∃ ns, err = .assocConflict ns := by
  unfold Experiment.add_profile at h
  split at h
  · exact absurd h (by simp)
  next pr =>
    split at h
    next heq =>
      injection h with h
      subst h
      exact extend_error heq
    · exact absurd h (by simp)

theorem lookup_map_setAssoc {l : List (String × AssociationsMap)} {t : String}
    {m : AssociationsMap} (hex : ∃ p ∈ l, p.1 = t) :
    (l.map fun p => if p.1 == t then (t, m) else p).lookup t = some m := by
  induction l with
  | nil => simp at hex
  | cons q l ih =>
    by_cases hq : (q.1 == t) = true
    · rw [List.map_cons, if_pos hq]
      simp [List.lookup]
    · have hne : (t == q.1) = false := by
        rw [beq_eq_false_iff_ne]
        intro hc
        exact hq (beq_iff_eq.mpr hc.symm)
      rcases hex with ⟨p, hp, hpt⟩
      rcases List.mem_cons.mp hp with rfl | hp
      · exact absurd (beq_iff_eq.mpr hpt) hq
      · rw [List.map_cons, if_neg hq]
        simp only [List.lookup, hne]
        exact ih ⟨p, hp, hpt⟩

theorem lookup_append_setAssoc {l : List (String × AssociationsMap)} {t : String}
    {m : AssociationsMap} (hnone : ∀ p ∈ l, p.1 ≠ t) :
    (l ++ [(t, m)]).lookup t = some m := by
  induction l with
  | nil => simp [List.lookup]
  | cons q l ih =>
    have hq : q.1 ≠ t := hnone q (List.mem_cons_self q l)
    have hne : (t == q.1) = false := by
      rw [beq_eq_false_iff_ne]
      intro hc
      exact hq hc.symm
    simp only [List.cons_append, List.lookup, hne]
    exact ih fun p hp => hnone p (List.mem_cons_of_mem q hp)

theorem lookup_setAssoc (l : List (String × AssociationsMap)) (t : String)
    (m : AssociationsMap) : (setAssoc l t m).lookup t = some m := by
  unfold setAssoc
  split
  next hany =>
    rcases List.any_eq_true.mp hany with ⟨p, hp, hbeq⟩
    exact lookup_map_setAssoc ⟨p, hp, beq_iff_eq.mp hbeq⟩
  next hany =>
    refine lookup_append_setAssoc fun p hp hpt => ?_
    exact hany (List.any_eq_true.mpr ⟨p, hp, beq_iff_eq.mpr hpt⟩)

theorem add_assoc_fields {e e' : Experiment} {nodes : List String} {t v : String}
    (h : e.add_assoc nodes t v = .ok e') :
    e'.firmwareassociations = e.firmwareassociations ∧
    e'.profileassociations = e.profileassociations ∧
    e'.nodes = e.nodes ∧ e'.type = e.type := by
  unfold Experiment.add_assoc at h
  split at h
  · exact absurd h (by simp)
  next m' hm =>
    injection h with h
    subst h
    exact ⟨rfl, rfl, rfl, rfl⟩

theorem add_assoc_error {e : Experiment} {nodes : List String} {t v : String}
    {err : ExpError} (h : e.add_assoc nodes t v = .error err) :
    ∃ ns, err = .assocConflict ns := by
  unfold Experiment.add_assoc at h
  split at h
  next heq =>
    injection h with h
    subst h
    exact extend_error heq
  · exact absurd h (by simp)

theorem add_assoc_keys {e e' : Experiment} {nodes : List String} {t v : String}
    (ht : t ≠ "firmware") (h : e.add_assoc nodes t v = .ok e') :
    v ∈ e'.extraKeys t := by
  unfold Experiment.add_assoc at h
  split at h
  · exact absurd h (by simp)
  next m' hm =>
    injection h with h
    subst h
    unfold Experiment.extraKeys
    have hl : (({ e with
        associations := some (setAssoc (e.associations.getD []) t m') } : Experiment).associations.getD []).lookup t = some m' :=
      lookup_setAssoc (e.associations.getD []) t m'
    rw [hl]
    have hmem := extend_mem_keys hm
    rw [assoc_name_other ht v] at hmem
    exact hmem

theorem add_assocs_fields {l : List (String × String)} :
    ∀ {e e' : Experiment} {nodes : List String},
    e.add_assocs nodes l = .ok e' →
    e'.firmwareassociations = e.firmwareassociations ∧
    e'.profileassociations = e.profileassociations ∧
    e'.nodes = e.nodes ∧ e'.type = e.type := by
  induction l with
  | nil =>
    intro e e' nodes h
    unfold Experiment.add_assocs at h
    injection h with h
    subst h
    exact ⟨rfl, rfl, rfl, rfl⟩
  | cons p l ih =>
    intro e e' nodes h
    unfold Experiment.add_assocs at h
    split at h
    · exact absurd h (by simp)
    next e1 heq =>
      have h1 := add_assoc_fields heq
      have h2 := ih h
      exact ⟨h2.1.trans h1.1, h2.2.1.trans h1.2.1, h2.2.2.1.trans h1.2.2.1,
             h2.2.2.2.trans h1.2.2.2⟩

theorem add_assocs_error {l : List (String × String)} :
    ∀ {e : Experiment} {nodes : List String} {err : ExpError},
    e.add_assocs nodes l = .error err → ∃ ns, err = .assocConflict ns := by
  induction l with
  | nil =>
    intro e nodes err h
    unfold Experiment.add_assocs at h
    exact absurd h (by simp)
  | cons p l ih =>
    intro e nodes err h
    unfold Experiment.add_assocs at h
    split at h
    next heq =>
      injection h with h
      subst h
      exact add_assoc_error heq
    next e1 heq => exact ih h

theorem register_nodes_fields {e e' : Experiment} {gn : GroupNodes}
    (h : e.register_nodes gn = .ok e') :
    e'.firmwareassociations = e.firmwareassociations ∧
    e'.profileassociations = e.profileassociations ∧
    e'.associations = e.associations := by
  cases gn with
  | physical urls =>
    simp only [Experiment.register_nodes] at h
    rw [set_physical_nodes_fields h]
    exact ⟨rfl, rfl, rfl⟩
  | aliasN a =>
    simp only [Experiment.register_nodes] at h
    rw [set_alias_nodes_fields h]
    exact ⟨rfl, rfl, rfl⟩

theorem add_exp_resources_ok_parts {e e' : Experiment} {g : ResourceGroup}
    (h : e.add_exp_resources g = .ok e') :
    ∃ e1 e2 e3 e4, e.set_type g.rtype = .ok e1 ∧ e1.register_nodes g.nodes = .ok e2 ∧
      e2.add_firmware g.firmware (assocSubject g.nodes) = .ok e3 ∧
      e3.add_profile g.profile (assocSubject g.nodes) = .ok e4 ∧
      e4.add_assocs (assocSubject g.nodes) g.associations = .ok e' := by
  unfold Experiment.add_exp_resources at h
  split at h
  · exact absurd h (by simp)
  next e1 h1 =>
    split at h
    · exact absurd h (by simp)
    next e2 h2 =>
      split at h
      · exact absurd h (by simp)
      next e3 h3 =>
        split at h
        · exact absurd h (by simp)
        next e4 h4 => exact ⟨e1, e2, e3, e4, h1, h2, h3, h4, h⟩

theorem add_exp_resources_filenames {e e' : Experiment} {g : ResourceGroup}
    (h : e.add_exp_resources g = .ok e') :
    e'.filenames = firmStep e.filenames g.firmware := by
  obtain ⟨e1, e2, e3, e4, h1, h2, h3, h4, h5⟩ := add_exp_resources_ok_parts h
  have q1 := set_type_ok h1
  subst q1
  have q2 := register_nodes_fields h2
  have q3 := add_firmware_filenames h3
  have q4 := add_profile_profileKeys h4
  have q5 := add_assocs_fields h5
  have c1 : e'.filenames = e3.filenames :=
    (filenames_congr q5.1).trans (filenames_congr q4.2.1)
  have c2 : e2.filenames = e.filenames := filenames_congr q2.1
  rw [c1, q3.1, c2]

theorem add_exp_resources_profileKeys {e e' : Experiment} {g : ResourceGroup}
    (h : e.add_exp_resources g = .ok e') :
    e'.profileKeys = profStep e.profileKeys g.profile := by
  obtain ⟨e1, e2, e3, e4, h1, h2, h3, h4, h5⟩ := add_exp_resources_ok_parts h
  have q1 := set_type_ok h1
  subst q1
  have q2 := register_nodes_fields h2
  have q3 := add_firmware_filenames h3
  have q4 := add_profile_profileKeys h4
  have q5 := add_assocs_fields h5
  have c1 : e'.profileKeys = e4.profileKeys := profileKeys_congr q5.2.1
  have c2 : e3.profileKeys = e.profileKeys :=
    (profileKeys_congr q3.2.1).trans (profileKeys_congr q2.2.1)
  rw [c1, q4.1, c2]

theorem add_exp_resources_conflict {e : Experiment} {g : ResourceGroup} {m : String}
    (htype : e.type = some m) (hne : g.rtype ≠ m) :
    e.add_exp_resources g = .error .modeConflict := by
  unfold Experiment.add_exp_resources
  rw [set_type_conflict htype fun hmt => hne hmt.symm]

theorem add_exp_resources_error_shape {e : Experiment} {g : ResourceGroup} {err : ExpError}
    (htype : e.type = none ∨ e.type = some g.rtype)
    (h : e.add_exp_resources g = .error err) :
    (∃ ns, err = .duplicateNodes ns) ∨ (∃ ns, err = .assocConflict ns) := by
  unfold Experiment.add_exp_resources at h
  split at h
  next heq =>
    rw [set_type_of_matching htype] at heq
    exact absurd heq (by simp)
  next e1 heq =>
    have he1 := set_type_ok heq
    subst he1
    split at h
    next err1 heq1 =>
      injection h with h
      subst h
      cases hg : g.nodes with
      | physical urls =>
        rw [hg] at heq1
        simp only [Experiment.register_nodes] at heq1
        have hrt : g.rtype = "physical" := by
          unfold ResourceGroup.rtype
          rw [hg]
        have ht2 : ({ e with type := some g.rtype } : Experiment).type = some "physical" := by
          show some g.rtype = some "physical"
          rw [hrt]
        exact Or.inl ⟨_, (set_physical_nodes_error_shape (Or.inr ht2) heq1).1⟩
      | aliasN a =>
        rw [hg] at heq1
        simp only [Experiment.register_nodes] at heq1
        have hrt : g.rtype = "alias" := by
          unfold ResourceGroup.rtype
          rw [hg]
        have ht2 : ({ e with type := some g.rtype } : Experiment).type = some "alias" := by
          show some g.rtype = some "alias"
          rw [hrt]
        rw [set_alias_nodes_of_matching (Or.inr ht2)] at heq1
        exact absurd heq1 (by simp)
    next e2 heq2 =>
      split at h
      next err2 heqf =>
        injection h with h
        subst h
        exact Or.inr (add_firmware_error heqf)
      next e3 heqf =>
        split at h
        next err3 heqp =>
          injection h with h
          subst h
          exact Or.inr (add_profile_error heqp)
        next e4 heqp => exact Or.inr (add_assocs_error h)

theorem foldl_filenames {groups : List ResourceGroup} :
    ∀ {e0 e : Experiment},
    groups.foldlM Experiment.add_exp_resources e0 = .ok e →
    e.filenames = firmware_names groups e0.filenames := by
  induction groups with
  | nil =>
    intro e0 e h
    rw [List.foldlM_nil] at h
    injection h with h
    subst h
    rfl
  | cons g gs ih =>
    intro e0 e h
    rw [List.foldlM_cons] at h
    cases hstep : e0.add_exp_resources g with
    | error err =>
      rw [hstep] at h
      simp [Bind.bind, Except.bind] at h
    | ok e1 =>
      rw [hstep] at h
      have h' : gs.foldlM Experiment.add_exp_resources e1 = .ok e := by
        simpa [Bind.bind, Except.bind] using h
      have hf := add_exp_resources_filenames hstep
      rw [ih h', hf]
      rfl

theorem firmware_names_nodup {groups : List ResourceGroup} :
    ∀ {ks : List String}, ks.Nodup → (firmware_names groups ks).Nodup := by
  induction groups with
  | nil => intro ks h; exact h
  | cons g gs ih =>
    intro ks h
    cases hf : g.firmware with
    | none =>
      simp only [firmware_names, firmStep, hf]
      exact ih h
    | some f =>
      simp only [firmware_names, firmStep, hf]
      exact ih (insertNew_nodup h (basename f))

/-! ## Claim theorems -/

/-- C1: for every experiment built by adding a sequence of resource groups of
one uniform addressing mode, serializing, reconstructing with `from_dict` and
serializing again yields a description identical to the first
serialization. -/
theorem round_trip_serialize (name : Option String) (duration : Nat) (start_time : Option Nat)
    (groups : List ResourceGroup) (e : Experiment) (t : String)
    (hu : ∀ g ∈ groups, g.rtype = t)
    (hb : buildExperiment name duration start_time groups = .ok e) :
    (Experiment.from_dict e.serialize).serialize = e.serialize :=
  serialize_from_dict e.serialize

/-- Witness for C1: a two-group alias experiment with firmware, profile and an
extra association round-trips. -/
theorem round_trip_serialize_witness :
    (∀ g ∈ [(⟨.aliasN ⟨"1", 2, "m3:at86rf231", "grenoble", false⟩, some "dir/fw_b", none, []⟩ : ResourceGroup),
             ⟨.aliasN ⟨"2", 1, "m3:at86rf231", "grenoble", false⟩, some "fw_a", some "prof", [("kernel", "k1")]⟩],
        g.rtype = "alias") ∧
    (Experiment.from_dict EXP2.serialize).serialize = EXP2.serialize :=
  ⟨by decide,
   round_trip_serialize none 60 none
     [⟨.aliasN ⟨"1", 2, "m3:at86rf231", "grenoble", false⟩, some "dir/fw_b", none, []⟩,
      ⟨.aliasN ⟨"2", 1, "m3:at86rf231", "grenoble", false⟩, some "fw_a", some "prof", [("kernel", "k1")]⟩]
     EXP2 "alias" (by decide) (by decide)⟩

/-- C4 counterexample: the claim says construction fails for every string
matching none of the whitelist patterns, reading the whitelist as the exact
strings plus the `custom:` wildcard. `wsn430:cc1101x` is neither an exact
whitelist string nor a `custom:` string, yet construction succeeds, because
`re.match` only anchors at the start: any string extending a whitelist
literal is accepted. -/
theorem valid_archi_counterexample :
    AliasNodes.make 1 "grenoble" "wsn430:cc1101x" false none 0 =
      .ok (⟨"1", 1, "wsn430:cc1101x", "grenoble", false⟩, 1) ∧
    ¬ claim_whitelisted "wsn430:cc1101x" := by
  constructor
  · rfl
  · decide

/-- C4 (amended): `AliasNodes` construction succeeds exactly on architecture
strings having one of the whitelist patterns as a prefix (`re.match`
semantics: the five literals as prefixes, or anything starting with
`custom:`); every exact whitelist string and every `custom:` string is
accepted, and every string with no whitelist-pattern prefix is rejected with
a validation error. -/
theorem valid_archi_characterization (n : Nat) (site archi : String) (m : Bool)
    (r : Option String) (c : Nat) :
    ((∃ p ∈ ARCHI_MATCH_PREFIXES, p.toList <+: archi.toList) →
        ∃ pr, AliasNodes.make n site archi m r c = .ok pr) ∧
    ((¬ ∃ p ∈ ARCHI_MATCH_PREFIXES, p.toList <+: archi.toList) →
        AliasNodes.make n site archi m r c = .error (.badArchi archi)) ∧
    (claim_whitelisted archi → ∃ p ∈ ARCHI_MATCH_PREFIXES, p.toList <+: archi.toList) := by
  have hval : AliasNodes.valid_archi archi = true ↔
      ∃ p ∈ ARCHI_MATCH_PREFIXES, p.toList <+: archi.toList := by
    unfold AliasNodes.valid_archi
    rw [List.any_eq_true]
    exact exists_congr fun p => and_congr_right fun _ => List.isPrefixOf_iff_prefix
  refine ⟨fun h => ?_, fun h => ?_, fun h => ?_⟩
  · unfold AliasNodes.make
    rw [if_pos (hval.mpr h)]
    exact ⟨_, rfl⟩
  · unfold AliasNodes.make
    rw [if_neg fun hv => h (hval.mp hv)]
  · rcases h with h | h
    · refine ⟨archi, ?_, List.prefix_refl _⟩
      fin_cases h <;> decide
    · exact ⟨"custom:", by decide, List.isPrefixOf_iff_prefix.mp h⟩

/-- Witness for C4 (amended): `custom:anything` is accepted. -/
theorem valid_archi_characterization_witness :
    ∃ pr, AliasNodes.make 3 "lille" "custom:leonardo:" true none 0 = .ok pr :=
  (valid_archi_characterization 3 "lille" "custom:leonardo:" true none 0).1
    ⟨"custom:", by decide, by decide⟩

/-- C5 counterexample: with timeout 0, a first clock reading equal to the
start time and a `fetch_state` always returning `Waiting`, the code calls
`fetch_state` once and fails only at the second check, because `_timeout`
compares strictly (`time.time() > start_time + timeout`); the claim predicts
a timeout failure at the first check, before any `fetch_state` call. -/
theorem wait_state_strict_counterexample :
    wait_state ["Running"] 0 0 [(0, "Waiting"), (5, "Waiting")] = (.timedOut, 1) ∧
    wait_state ["Running"] 0 0 [(0, "Waiting"), (5, "Waiting")] ≠ (.timedOut, 0) := by
  decide

/-- C5 (amended): the timeout check is strict (the loop exits once the clock
reading exceeds `start_time + timeout`) and is performed at the top of each
iteration from loop entry. With timeout 0 and a non-target, non-terminal
first state, the poller times out with `fetch_state` called at most once
provided the clock has advanced past the start time by the second check, and
with no `fetch_state` call at all when it has already advanced by the first
check. -/
theorem wait_state_timeout_zero (expected : List String) (t0 t1 t2 : Nat) (s1 s2 : String)
    (rest : List (Nat × String)) (h1 : s1 ∉ expected) (h2 : s1 ∉ STOPPED_STATES)
    (h3 : t0 < t2) :
    ((wait_state expected t0 0 ((t1, s1) :: (t2, s2) :: rest)).1 = .timedOut ∧
     (wait_state expected t0 0 ((t1, s1) :: (t2, s2) :: rest)).2 ≤ 1) ∧
    (t0 < t1 → wait_state expected t0 0 ((t1, s1) :: (t2, s2) :: rest) = (.timedOut, 0)) := by
  by_cases ht : t0 < t1
  · constructor
    · simp [wait_state, ht]
    · intro _
      simp [wait_state, ht]
  · have hstep := wait_state_neutral_step expected t0 0 t1 s1 ((t2, s2) :: rest)
      (by omega) h1 h2
    have hinner : wait_state expected t0 0 ((t2, s2) :: rest) = (.timedOut, 0) := by
      simp [wait_state, h3]
    rw [hstep, hinner]
    exact ⟨⟨rfl, by norm_num⟩, fun h => absurd h ht⟩

/-- Witness for C5 (amended): a concrete trace whose first reading equals the
start time: one fetch, then timeout. -/
theorem wait_state_timeout_zero_witness :
    ((wait_state ["Running"] 3 0 [(3, "Waiting"), (4, "Waiting")]).1 = .timedOut ∧
     (wait_state ["Running"] 3 0 [(3, "Waiting"), (4, "Waiting")]).2 ≤ 1) ∧
    (3 < 3 → wait_state ["Running"] 3 0 [(3, "Waiting"), (4, "Waiting")] = (.timedOut, 0)) :=
  wait_state_timeout_zero ["Running"] 3 3 4 "Waiting" "Waiting" []
    (by decide) (by decide) (by decide)

/-- C6: if, before the timeout, the poller observes a state in the fixed
terminal set that is not a target, and no earlier observation was a target
(or terminal) state, `wait_state` fails with the already-terminal error
carrying that state after exactly one `fetch_state` call per earlier
observation plus one; and a state in neither set never aborts the loop: the
iteration just recurses with one more `fetch_state` call. -/
theorem wait_state_already_terminal :
    (∀ (expected : List String) (t0 timeout : Nat) (pre : List (Nat × String))
        (t : Nat) (s : String) (rest : List (Nat × String)),
      (∀ p ∈ pre, p.1 ≤ t0 + timeout ∧ p.2 ∉ expected ∧ p.2 ∉ STOPPED_STATES) →
      t ≤ t0 + timeout → s ∈ STOPPED_STATES → s ∉ expected →
      wait_state expected t0 timeout (pre ++ (t, s) :: rest) =
        (.alreadyTerminal s, pre.length + 1)) ∧
    (∀ (expected : List String) (t0 timeout t : Nat) (s : String)
        (rest : List (Nat × String)),
      t ≤ t0 + timeout → s ∉ expected → s ∉ STOPPED_STATES →
      wait_state expected t0 timeout ((t, s) :: rest) =
        ((wait_state expected t0 timeout rest).1,
         (wait_state expected t0 timeout rest).2 + 1)) := by
  constructor
  · intro expected t0 timeout pre
    induction pre with
    | nil =>
      intro t s rest _ ht hs hns
      simp [wait_state, Nat.not_lt.mpr ht, hns, hs]
    | cons p pre ih =>
      intro t s rest hpre ht hs hns
      obtain ⟨hp1, hp2, hp3⟩ := hpre p (List.mem_cons_self p pre)
      rw [List.cons_append,
          wait_state_neutral_step expected t0 timeout p.1 p.2 (pre ++ (t, s) :: rest) hp1 hp2 hp3,
          ih t s rest (fun q hq => hpre q (List.mem_cons_of_mem p hq)) ht hs hns]
      simp [List.length_cons]
  · intro expected t0 timeout t s rest ht h1 h2
    exact wait_state_neutral_step expected t0 timeout t s rest ht h1 h2

/-- Witness for C6: a `Waiting` observation followed by `Error` before the
deadline aborts with the already-terminal error after two fetches. -/
theorem wait_state_already_terminal_witness :
    wait_state ["Running"] 0 10 ([(1, "Waiting")] ++ (2, "Error") :: []) =
      (.alreadyTerminal "Error", 2) :=
  wait_state_already_terminal.1 ["Running"] 0 10 [(1, "Waiting")] 2 "Error" []
    (by decide) (by decide) (by decide) (by decide)

/-- C9: alias ids assigned without an explicit id are the successive values
of the shared counter rendered as strings, and an explicit id is used
verbatim and leaves the counter unchanged; moreover every successful
`AliasNodes` construction assigns exactly the id and counter that
`_alias_uid` produces. -/
theorem alias_uid_sequential :
    (∀ (rs : List (Option String)) (c : Nat),
        alias_seq rs c = (claimed_ids rs c, c + count_auto rs)) ∧
    (∀ (n : Nat) (site archi : String) (m : Bool) (r : Option String) (c : Nat)
        (a : AliasNodes) (c' : Nat),
      AliasNodes.make n site archi m r c = .ok (a, c') →
      a.aliasid = (AliasNodes.alias_uid r c).1 ∧ c' = (AliasNodes.alias_uid r c).2) := by
  constructor
  · intro rs
    induction rs with
    | nil => intro c; rfl
    | cons r rs ih =>
      intro c
      cases r with
      | none =>
        simp [alias_seq, claimed_ids, AliasNodes.alias_uid, ih, count_auto,
              List.countP_cons]
        omega
      | some s =>
        simp [alias_seq, claimed_ids, AliasNodes.alias_uid, ih, count_auto,
              List.countP_cons]
  · intro n site archi m r c a c' h
    unfold AliasNodes.make at h
    split at h
    · injection h with h
      injection h with h1 h2
      cases h1
      exact ⟨rfl, h2.symm⟩
    · exact absurd h (by simp)

/-- Witness for C9: three constructions starting at counter 0 — auto,
explicit `7`, auto — get ids `1`, `7`, `2`, and a successful construction
with an auto id at counter 0 is assigned id `1` with counter 1. -/
theorem alias_uid_sequential_witness :
    alias_seq [none, some "7", none] 0 = (["1", "7", "2"], 2) ∧
    ((⟨"1", 1, "m3:at86rf231", "g", false⟩ : AliasNodes).aliasid =
        (AliasNodes.alias_uid none 0).1 ∧
      (1 : Nat) = (AliasNodes.alias_uid none 0).2) :=
  ⟨(alias_uid_sequential.1 [none, some "7", none] 0).trans (by decide),
   alias_uid_sequential.2 1 "g" "m3:at86rf231" false none 0
     ⟨"1", 1, "m3:at86rf231", "g", false⟩ 1 (by decide)⟩

/-- C2: the addressing mode is fixed by the first resource group; a later
`add_exp_resources` (or direct `set_physical_nodes` / `set_alias_nodes`)
whose type differs from the established mode fails with the mode-conflict
error, in either order, and a group matching the established mode never
triggers that error. -/
theorem add_resources_mode_conflict :
    (∀ (e : Experiment) (g : ResourceGroup) (m : String),
      e.type = some m → g.rtype ≠ m → e.add_exp_resources g = .error .modeConflict) ∧
    (∀ (e : Experiment) (g : ResourceGroup),
      e.type = some g.rtype → e.add_exp_resources g ≠ .error .modeConflict) ∧
    (∀ (e : Experiment) (urls : List String),
      e.type = some "alias" → e.set_physical_nodes urls = .error .modeConflict) ∧
    (∀ (e : Experiment) (a : AliasNodes),
      e.type = some "physical" → e.set_alias_nodes a = .error .modeConflict) := by
  refine ⟨?_, ?_, ?_, ?_⟩
  · intro e g m htype hne
    exact add_exp_resources_conflict htype hne
  · intro e g htype hcontra
    rcases add_exp_resources_error_shape (Or.inr htype) hcontra with ⟨ns, hns⟩ | ⟨ns, hns⟩ <;>
      exact ExpError.noConfusion hns
  · intro e urls htype
    unfold Experiment.set_physical_nodes
    rw [set_type_conflict htype (by decide)]
  · intro e a htype
    unfold Experiment.set_alias_nodes
    rw [set_type_conflict htype (by decide)]

/-- Witness for C2: adding an alias group to a physical experiment fails
with the mode conflict, as does a direct `set_alias_nodes` call. -/
theorem add_resources_mode_conflict_witness :
    EXPP.add_exp_resources GB = .error .modeConflict ∧
    EXPP.set_alias_nodes ⟨"9", 1, "m3:at86rf231", "g", false⟩ = .error .modeConflict :=
  ⟨add_resources_mode_conflict.1 EXPP GB "physical" rfl (by decide),
   add_resources_mode_conflict.2.2.2 EXPP ⟨"9", 1, "m3:at86rf231", "g", false⟩ rfl⟩

/-- C3: in physical mode, adding a node list intersecting the registered
nodes fails with the duplicate-node error reporting exactly the
intersection; a disjoint node list is added successfully. -/
theorem set_physical_nodes_duplicate (e : Experiment) (urls : List String)
    (htype : e.type = some "physical") :
    ((∃ u ∈ urls, SerNode.phys u ∈ e.nodes) →
      e.set_physical_nodes urls = .error (.duplicateNodes (e.dupNodes urls)) ∧
      ∀ x, x ∈ e.dupNodes urls ↔ SerNode.phys x ∈ e.nodes ∧ x ∈ urls) ∧
    ((∀ u ∈ urls, SerNode.phys u ∉ e.nodes) →
      ∃ e', e.set_physical_nodes urls = .ok e') := by
  constructor
  · intro hex
    constructor
    · unfold Experiment.set_physical_nodes
      rw [set_type_of_matching (Or.inr htype)]
      have hne : ¬ (({ e with type := some "physical" } : Experiment).dupNodes urls).isEmpty = true := by
        rcases hex with ⟨u, hu, hmem⟩
        have hin : u ∈ ({ e with type := some "physical" } : Experiment).dupNodes urls :=
          mem_dupNodes.mpr ⟨hmem, hu⟩
        intro hemp
        rw [List.isEmpty_iff] at hemp
        rw [hemp] at hin
        exact absurd hin (List.not_mem_nil u)
      split
      next heq => exact absurd heq (by simp)
      next e1 heq =>
        injection heq with heq
        subst heq
        rw [if_neg hne]
        rfl
    · intro x
      exact mem_dupNodes
  · intro hdisj
    exact ⟨_, set_physical_nodes_success (Or.inr htype) hdisj⟩

/-- Witness for C3: with `a-1.x` registered, adding `[a-1.x, a-2.x]` fails
with the duplicate error, and adding the disjoint `[b-7.y]` succeeds. -/
theorem set_physical_nodes_duplicate_witness :
    EXPP.set_physical_nodes ["a-1.x", "a-2.x"] =
      .error (.duplicateNodes (EXPP.dupNodes ["a-1.x", "a-2.x"])) ∧
    ∃ e', EXPP.set_physical_nodes ["b-7.y"] = .ok e' :=
  ⟨((set_physical_nodes_duplicate EXPP ["a-1.x", "a-2.x"] rfl).1 (by decide)).1,
   (set_physical_nodes_duplicate EXPP ["b-7.y"] rfl).2 (by decide)⟩

/-- C7 counterexample: building from two groups with firmwares `b` then `a`
records the file names in first-insertion order `[b, a]`, not the sorted
list `[a, b]` the claim predicts (sorted and deduplicated distinct
basenames). -/
theorem filenames_not_sorted_counterexample :
    buildExperiment none 1 none [GB, GA] = .ok EXPBA ∧
    EXPBA.filenames = ["b", "a"] ∧
    EXPBA.filenames ≠ ["a", "b"] := by
  refine ⟨by decide, by decide, by decide⟩

/-- C7 (amended): `filenames` returns exactly the distinct basenames used as
firmware value names, deduplicated, in first-seen insertion order (not
sorted), independent of how many node groups reference each; no profile or
other association value names are included. -/
theorem build_filenames (name : Option String) (duration : Nat) (start_time : Option Nat)
    (groups : List ResourceGroup) (e : Experiment)
    (h : buildExperiment name duration start_time groups = .ok e) :
    e.filenames = firmware_names groups [] ∧ e.filenames.Nodup := by
  unfold buildExperiment at h
  have h1 := foldl_filenames h
  refine ⟨h1, ?_⟩
  rw [h1]
  exact firmware_names_nodup List.nodup_nil

/-- Witness for C7 (amended): the two-group build records `[b, a]`, no
duplicates. -/
theorem build_filenames_witness :
    EXPBA.filenames = firmware_names [GB, GA] [] ∧ EXPBA.filenames.Nodup :=
  build_filenames none 1 none [GB, GA] EXPBA (by decide)

/-- C8: the recorded value name of a firmware association is the file
basename, and for every other association type (profile and extras) the
value name is recorded unchanged. -/
theorem association_name_normalization :
    (∀ n : String, nodes_association_name "firmware" n = basename n) ∧
    (∀ t n : String, t ≠ "firmware" → nodes_association_name t n = n) ∧
    (∀ (e : Experiment) (g : ResourceGroup) (e' : Experiment) (f : String),
      e.add_exp_resources g = .ok e' → g.firmware = some f → basename f ∈ e'.filenames) ∧
    (∀ (e : Experiment) (g : ResourceGroup) (e' : Experiment) (p : String),
      e.add_exp_resources g = .ok e' → g.profile = some p → p ∈ e'.profileKeys) ∧
    (∀ (e : Experiment) (nodes : List String) (t v : String) (e' : Experiment),
      t ≠ "firmware" → e.add_assoc nodes t v = .ok e' → v ∈ e'.extraKeys t) := by
  refine ⟨assoc_name_firmware, fun t n ht => assoc_name_other ht n, ?_, ?_, ?_⟩
  · intro e g e' f h hf
    have hx := add_exp_resources_filenames h
    rw [hf] at hx
    rw [hx]
    exact mem_insertNew_self _ _
  · intro e g e' p h hp
    have hx := add_exp_resources_profileKeys h
    rw [hp] at hx
    rw [hx]
    exact mem_insertNew_self _ _
  · intro e nodes t v e' ht h
    exact add_assoc_keys ht h

/-- Witness for C8: adding a group with firmware `b` records `b` in the
firmware names, and an extra `kernel` association records its name
unchanged. -/
theorem association_name_normalization_witness :
    basename "b" ∈ EXPB.filenames ∧ "k1" ∈ EXPK.extraKeys "kernel" :=
  ⟨association_name_normalization.2.2.1 (Experiment.new none 1 none) GB EXPB "b"
     (by decide) rfl,
   association_name_normalization.2.2.2.2 (Experiment.new none 1 none) ["1"] "kernel" "k1"
     EXPK (by decide) (by decide)⟩

/-- C10: duplicates inside one physical group's own node list never raise,
the node list after every successful `set_physical_nodes` call is
duplicate-free and sorted by the canonical node ordering, and in physical
mode an error arises only from overlap with previously registered nodes. -/
theorem set_physical_nodes_dedup_sorted :
    (∀ (e : Experiment) (urls : List String) (e' : Experiment),
      e.set_physical_nodes urls = .ok e' →
      e'.nodes.Nodup ∧ List.Sorted nodeLe e'.nodes) ∧
    (∀ (e : Experiment) (urls : List String),
      (e.type = none ∨ e.type = some "physical") →
      (∀ u ∈ urls, SerNode.phys u ∉ e.nodes) →
      ∃ e', e.set_physical_nodes urls = .ok e') ∧
    (∀ (e : Experiment) (urls : List String) (err : ExpError),
      e.type = some "physical" →
      e.set_physical_nodes urls = .error err →
      err = .duplicateNodes (e.dupNodes urls) ∧ ∃ u ∈ urls, SerNode.phys u ∈ e.nodes) := by
  refine ⟨?_, ?_, ?_⟩
  · intro e urls e' h
    rw [set_physical_nodes_fields h]
    constructor
    · exact ((List.perm_insertionSort nodeLe _).nodup_iff).mpr (List.nodup_dedup _)
    · exact List.sorted_insertionSort nodeLe _
  · intro e urls htype hdisj
    exact ⟨_, set_physical_nodes_success htype hdisj⟩
  · intro e urls err htype h
    exact set_physical_nodes_error_shape (Or.inr htype) h

/-- Witness for C10: a fresh experiment accepts a node list containing the
same node twice, and the resulting node list is duplicate-free and
sorted. -/
theorem set_physical_nodes_dedup_sorted_witness :
    (E1X.nodes.Nodup ∧ List.Sorted nodeLe E1X.nodes) ∧
    ∃ e', (Experiment.new none 30 none).set_physical_nodes ["a-1.x", "a-1.x"] = .ok e' :=
  ⟨set_physical_nodes_dedup_sorted.1 (Experiment.new none 30 none) ["a-1.x", "a-1.x"] E1X
     (by decide),
   set_physical_nodes_dedup_sorted.2.1 (Experiment.new none 30 none) ["a-1.x", "a-1.x"]
     (Or.inl rfl) (by decide)⟩

end Iotlab
